import Mathlib

set_option maxHeartbeats 1000000

/-!
Shallow embedding of the InternHuntAI auto-apply worker
(auto_apply_service.py).  The page-automation interface is modelled as
finite response traces stored in a `Page` record and consumed in call
order; an exhausted trace answers every further call benignly (element
absent, empty content, no raise).  Exceptions are modelled by an error
monad whose errors carry the page state reached so far, so that a
caught exception does not roll back already-consumed responses, exactly
as in the Python source.
-/

/-- ASCII lowercasing of one character, the model of str.lower on the
ASCII selectors and vocabulary this program works with. -/
def lowerChar (c : Char) : Char :=
  if 65 <= c.toNat && c.toNat <= 90 then Char.ofNat (c.toNat + 32) else c

/-- str.lower. -/
def lowerStr (s : String) : String := String.mk (s.data.map lowerChar)

def listPrefixOf : List Char → List Char → Bool
  | [], _ => true
  | _ :: _, [] => false
  | p :: ps, c :: cs => p == c && listPrefixOf ps cs

def listContains : List Char → List Char → Bool
  | [], pat => pat.isEmpty
  | c :: cs, pat => listPrefixOf pat (c :: cs) || listContains cs pat

/-- Python substring test `pat in hay`. -/
def containsStr (hay pat : String) : Bool :=
  listContains hay.data pat.data

def takeUntilChar (ch : Char) : List Char → List Char
  | [] => []
  | c :: cs => if c == ch then [] else c :: takeUntilChar ch cs

/-- Canonicalization of a discovered href, the translation of
`href.split("?")[0]`: the text before the first question mark. -/
def stripQuery (s : String) : String :=
  String.mk (takeUntilChar (Char.ofNat 63) s.data)

/-- Whitespace recognizer for str.strip. -/
def isSpaceChar (c : Char) : Bool :=
  c == Char.ofNat 32 || c == Char.ofNat 9 || c == Char.ofNat 10 || c == Char.ofNat 13

/-- str.strip. -/
def trimStr (s : String) : String :=
  String.mk (((s.data.dropWhile isSpaceChar).reverse.dropWhile isSpaceChar).reverse)

/-- Behaviour of an element handle returned by a query: each method
either succeeds with the stored value or raises the stored message. -/
structure Elem where
  innerTextR : Option String
  valueAttrR : Option (Option String)
  clickMsg : Option String
  fillMsg : Option String
  setFilesMsg : Option String
deriving DecidableEq

/-- Response of a single `query_selector` call. -/
inductive QRes where
  | found (e : Elem)
  | absent
  | qboom (msg : String)
deriving DecidableEq

/-- Response of a single `query_selector_all` call. -/
inductive QARes where
  | elems (l : List Elem)
  | qaboom (msg : String)
deriving DecidableEq

/-- Response of the recaptcha-iframe query inside the CAPTCHA gate. -/
inductive IfrRes where
  | present
  | absent
  | iboom (msg : String)
deriving DecidableEq

/-- One evaluation round of the CAPTCHA detection predicate: the result
of the `page.content()` call (`none` = it raised, which the source
catches and treats as empty content) and of the iframe query (whose
raise is not caught by the gate). -/
structure Round where
  contentR : Option String
  iframeR : IfrRes
deriving DecidableEq

/-- The page state: pending response traces for each automation
primitive, plus observable effect logs (clicks performed, fields
filled, files uploaded, CAPTCHA-gate activity). -/
structure Page where
  gotoMsgs : List (Option String)
  rounds : List Round
  queries : List QRes
  queryAlls : List QARes
  fileChecks : List Bool
  clicks : List String
  fills : List (String × String)
  uploads : Nat
  flashes : Nat
  gateSleeps : Nat
  restores : Nat
  gateCalls : Nat
deriving DecidableEq

/-- Application-section configuration (APP_CFG after defaults). -/
structure Config where
  skip_long_forms : Bool
  phone_number : String
  submit_without_review : Bool
  resume_data_science : String
  resume_software_engineering : String
deriving DecidableEq

/-- A job dict produced by discovery. -/
structure Job where
  title : String
  company : String
  url : String
  easy_apply : Bool
deriving DecidableEq

/-- The dict returned by apply_easy_apply: status plus notes. -/
structure ApplyResult where
  status : String
  notes : String
deriving DecidableEq

/-- Page monad: state passing plus Python exceptions; an error carries
the page state reached at the raise point. -/
def PageM (α : Type) : Type := Page → Except (String × Page) (α × Page)

def PageM.pureF {α : Type} (a : α) : PageM α := fun p => .ok (a, p)

def PageM.bindF {α β : Type} (m : PageM α) (f : α → PageM β) : PageM β := fun p =>
  match m p with
  | .ok (a, p2) => f a p2
  | .error e => .error e

instance : Monad PageM where
  pure := PageM.pureF
  bind := PageM.bindF

/-- Python `raise`. -/
def raiseM {α : Type} (msg : String) : PageM α := fun p => .error (msg, p)

/-- Python `try: m except Exception as e: h(e)`; the state consumed
before the raise persists. -/
def tryCatchM {α : Type} (m : PageM α) (h : String → PageM α) : PageM α := fun p =>
  match m p with
  | .ok r => .ok r
  | .error (msg, p2) => h msg p2

/-- Python `try: m except Exception: pass`. -/
def tryPass (m : PageM Unit) : PageM Unit := tryCatchM m (fun _ => pure ())

/-- page.goto: consumes one goto response; may raise. -/
def pgGoto (url : String) : PageM Unit := fun p =>
  match p.gotoMsgs with
  | [] => .ok ((), p)
  | none :: rest => .ok ((), {p with gotoMsgs := rest})
  | some msg :: rest => .error (msg, {p with gotoMsgs := rest})

/-- page.query_selector: consumes one query response. -/
def pgQuery (sel : String) : PageM (Option Elem) := fun p =>
  match p.queries with
  | [] => .ok (none, p)
  | .found e :: rest => .ok (some e, {p with queries := rest})
  | .absent :: rest => .ok (none, {p with queries := rest})
  | .qboom msg :: rest => .error (msg, {p with queries := rest})

/-- query_selector_all: consumes one list response. -/
def pgQueryAll (sel : String) : PageM (List Elem) := fun p =>
  match p.queryAlls with
  | [] => .ok ([], p)
  | .elems l :: rest => .ok (l, {p with queryAlls := rest})
  | .qaboom msg :: rest => .error (msg, {p with queryAlls := rest})

/-- page.keyboard.press: only ever called inside a try/except-pass in
the source, and has no effect observed by any claim, so it is a no-op. -/
def pgPress (key : String) : PageM Unit := pure ()

/-- os.path.exists on the chosen resume path: consumes one response
from the filesystem oracle. -/
def pgFileExists (path : String) : PageM Bool := fun p =>
  match p.fileChecks with
  | [] => .ok (false, p)
  | b :: rest => .ok (b, {p with fileChecks := rest})

/-- element.click(): raises the stored message or logs the click tag. -/
def elClick (e : Elem) (tag : String) : PageM Unit := fun p =>
  match e.clickMsg with
  | some msg => .error (msg, p)
  | none => .ok ((), {p with clicks := p.clicks ++ [tag]})

/-- element.fill(value). -/
def elFill (e : Elem) (sel val : String) : PageM Unit := fun p =>
  match e.fillMsg with
  | some msg => .error (msg, p)
  | none => .ok ((), {p with fills := p.fills ++ [(sel, val)]})

/-- element.set_input_files(path). -/
def elSetFiles (e : Elem) (path : String) : PageM Unit := fun p =>
  match e.setFilesMsg with
  | some msg => .error (msg, p)
  | none => .ok ((), {p with uploads := p.uploads + 1})

/-- One evaluation of the CAPTCHA detection predicate on a round of
responses: content() is wrapped in try (a raise reads as empty
content), the iframe query is not, so its raise propagates.  The
iframe query is only consulted when the marker is not in the content,
mirroring the short-circuit in the source. -/
def captchaPred (r : Round) : Except String Bool :=
  let content := lowerStr (r.contentR.getD "")
  if containsStr content "captcha" then .ok true
  else match r.iframeR with
    | .iboom msg => .error msg
    | .present => .ok true
    | .absent => .ok false

/-- Outcome of the wait loop of the gate over the remaining rounds. -/
inductive SpinOut where
  | cleared (n : Nat) (rest : List Round)
  | raised (n : Nat) (msg : String) (rest : List Round)
deriving DecidableEq

/-- The wait loop of detect_captcha_and_wait: while the predicate holds
flash and sleep (counted in `n`); return when it clears or a raise
escapes.  Structural recursion over the finite trace; an exhausted
trace evaluates the predicate on benign defaults, hence clears. -/
def captchaSpin : List Round → SpinOut
  | [] => .cleared 0 []
  | r :: rest =>
    match captchaPred r with
    | .error msg => .raised 0 msg rest
    | .ok false => .cleared 0 rest
    | .ok true =>
      match captchaSpin rest with
      | .cleared n rem => .cleared (n + 1) rem
      | .raised n msg rem => .raised (n + 1) msg rem

/-- detect_captcha_and_wait: the entry check returns immediately when
the predicate is false (no flash, no sleep, no restore); otherwise it
loops, flashing each round the predicate still holds, and on clearing
restores the background and returns. -/
def detect_captcha_and_wait : PageM Unit := fun p =>
  match p.rounds with
  | [] => .ok ((), {p with gateCalls := p.gateCalls + 1})
  | r :: rest =>
    match captchaPred r with
    | .error msg => .error (msg, {p with gateCalls := p.gateCalls + 1, rounds := rest})
    | .ok false => .ok ((), {p with gateCalls := p.gateCalls + 1, rounds := rest})
    | .ok true =>
      match captchaSpin rest with
      | .cleared n rem =>
        .ok ((), {p with
          gateCalls := p.gateCalls + 1,
          rounds := rem,
          flashes := p.flashes + n,
          gateSleeps := p.gateSleeps + n,
          restores := p.restores + 1})
      | .raised n msg rem =>
        .error (msg, {p with
          gateCalls := p.gateCalls + 1,
          rounds := rem,
          flashes := p.flashes + n,
          gateSleeps := p.gateSleeps + n})

/-- The ordered selector list tried for the Easy Apply trigger (the
selector text is documentation; responses are consumed positionally). -/
def easyApplySelectors : List String :=
  ["button.jobs-apply-button", "xpath-button-easy-apply", "button-data-control-apply-open"]

/-- The LocateApplyControl loop: first selector whose query returns an
element wins; a raising query is caught and the next selector tried. -/
def findFirstSel : List String → PageM (Option Elem)
  | [] => pure none
  | s :: rest => do
    let r ← tryCatchM (pgQuery s) (fun _ => pure none)
    match r with
    | some b => pure (some b)
    | none => findFirstSel rest

/-- Forward-navigation vocabulary used by the step estimator. -/
def advanceVocab : List String := ["next", "continue", "review", "forward"]

/-- Effective text of a modal control candidate, the translation of
`(b.inner_text() or b.get_attribute("value") or "")`; `none` means the
lookup raised (the candidate is then skipped by the caller). -/
def elemTxt (e : Elem) : Option String :=
  match e.innerTextR with
  | none => none
  | some t =>
    if t != "" then some t
    else match e.valueAttrR with
      | none => none
      | some v => some (v.getD "")

/-- Count of forward-navigation controls among the modal candidates;
candidates whose text lookup raises are skipped. -/
def countAdvance (l : List Elem) : Nat :=
  l.countP (fun e =>
    match elemTxt e with
    | none => false
    | some t => advanceVocab.any (fun k => containsStr (lowerStr t) k))

/-- EstimateComplexity: step estimate is 1 when no modal is found, else
the count of forward-navigation controls plus one, floored at one.
The modal query and the candidate enumeration are not inside a try, so
their raises propagate. -/
def estimateSteps : PageM Nat := do
  let modal ← pgQuery "div.jobs-easy-apply-modal"
  match modal with
  | none => pure 1
  | some _ => do
    let cands ← pgQueryAll "button-or-input-button"
    pure (max 1 (countAdvance cands + 1))

/-- Dismissal of a long form: close control if present, else Escape;
everything inside a try/except-pass. -/
def dismissModal : PageM Unit :=
  tryPass (do
    let cb ← pgQuery "button-aria-dismiss-or-close"
    match cb with
    | some e => elClick e "dismiss"
    | none => pgPress "Escape")

/-- Phone-field selector list; every selector is attempted (there is no
break in the source), each attempt inside its own try/except-pass. -/
def phoneSelectors : List String :=
  ["input-name-phone", "input-placeholder-phone", "input-aria-phone"]

def fillPhoneSels (phone : String) : List String → PageM Unit
  | [] => pure ()
  | sel :: rest => do
    tryPass (do
      let el ← pgQuery sel
      match el with
      | some e => elFill e sel phone
      | none => pure ())
    fillPhoneSels phone rest

/-- FillKnownFields, phone part: skipped entirely when the configured
phone number is empty. -/
def fillPhone (phone : String) : PageM Unit :=
  if phone != "" then fillPhoneSels phone phoneSelectors else pure ()

/-- Keywords routing a job title to the data-science resume. -/
def resumeKeywords : List String := ["data", "machine", "ml", "ai", "analyst", "scientist"]

def choose_resume_for_title (resumeDS resumeSE title : String) : String :=
  let t := lowerStr title
  if resumeKeywords.any (fun k => containsStr t k) then resumeDS else resumeSE

/-- Resume upload: file input queried, existence of the chosen resume
checked, upload attempted; all inside a try/except-pass. -/
def uploadResume (resumeDS resumeSE title : String) : PageM Unit := do
  let resume := choose_resume_for_title resumeDS resumeSE title
  tryPass (do
    let fi ← pgQuery "input-type-file"
    match fi with
    | some e => do
      let ex ← pgFileExists resume
      if ex then elSetFiles e resume else pure ()
    | none => pure ())

/-- click_by_text: for each word, query the lowercased-contains xpath
inside a try; a found element is clicked and True returned; a raise
(from the query or the click) is caught and the next word tried. -/
def click_by_text : List String → PageM Bool
  | [] => pure false
  | w :: rest => do
    let r ← tryCatchM (do
        let el ← pgQuery ("xpath-button-contains-" ++ w)
        match el with
        | some e => do
          elClick e w
          pure true
        | none => pure false)
      (fun _ => pure false)
    if r then pure true else click_by_text rest

/-- Submit-control vocabulary. -/
def submitVocab : List String := ["submit application", "submit", "apply now", "send", "finish"]

/-- Advance-control vocabulary of the click flow. -/
def advanceClickVocab : List String := ["next", "continue", "review"]

/-- The advance loop: up to `n` advances, each successful advance click
followed by a CAPTCHA-gate check; a failed click breaks out. -/
def advanceLoop : Nat → PageM Unit
  | 0 => pure ()
  | n + 1 => do
    let c ← click_by_text advanceClickVocab
    if c then do
      detect_captcha_and_wait
      advanceLoop n
    else pure ()

/-- The AdvanceOrSubmit phase computing the `submitted` flag: direct
submit first; else up to two advances, then one more submit attempt. -/
def computeSubmitted : PageM Bool := do
  let s1 ← click_by_text submitVocab
  if s1 then pure true
  else do
    advanceLoop 2
    click_by_text submitVocab

/-- Non-terminal-free description of where the apply flow ended. -/
inductive FlowRes where
  | noEasy
  | skippedLong (est : Nat)
  | submitRes (submitted : Bool)
deriving DecidableEq

/-- The body of apply_easy_apply up to (but excluding) the final
consultation of the submit-without-review flag.  The flag is not an
argument: the source reads it only after the submit flow has run. -/
def applyFlow (skipLong : Bool) (phone resumeDS resumeSE : String) (job : Job) :
    PageM FlowRes := do
  pgGoto job.url
  detect_captcha_and_wait
  let btn ← findFirstSel easyApplySelectors
  match btn with
  | none => pure .noEasy
  | some b => do
    elClick b "easy-apply-button"
    detect_captcha_and_wait
    let stepEst ← estimateSteps
    if skipLong && decide (stepEst > 2) then do
      dismissModal
      pure (.skippedLong stepEst)
    else do
      fillPhone phone
      uploadResume resumeDS resumeSE job.title
      let submitted ← computeSubmitted
      pure (.submitRes submitted)

/-- Finalize: the terminal dict for each flow ending, consulting the
submit-without-review flag only in the submitted case. -/
def finalizeRes (fr : FlowRes) (submitWithoutReview : Bool) : ApplyResult :=
  match fr with
  | .noEasy => ⟨"no_easy_apply", "no Easy Apply"⟩
  | .skippedLong est => ⟨"skipped_long_form", toString est ++ " steps"⟩
  | .submitRes true =>
    if submitWithoutReview then ⟨"applied", "submitted"⟩
    else ⟨"prepared", "filled but auto-submit disabled"⟩
  | .submitRes false => ⟨"filled_no_submit", "could not find final submit"⟩

/-- The body of apply_easy_apply inside its try. -/
def applyGo (job : Job) (cfg : Config) : PageM ApplyResult :=
  PageM.bindF
    (applyFlow cfg.skip_long_forms cfg.phone_number cfg.resume_data_science
      cfg.resume_software_engineering job)
    (fun fr => PageM.pureF (finalizeRes fr cfg.submit_without_review))

/-- apply_easy_apply: the whole body is inside one try/except, so any
uncaught raise becomes the error outcome with the message as notes. -/
def apply_easy_apply (page : Page) (job : Job) (cfg : Config) : ApplyResult × Page :=
  match applyGo job cfg page with
  | .ok (r, p2) => (r, p2)
  | .error (msg, p2) => (⟨"error", msg⟩, p2)

/-- Text-element handle seen by discovery; `none` means inner_text raised. -/
structure TextEl where
  innerTextR : Option String
deriving DecidableEq

/-- Link-element handle seen by discovery; outer `none` means
get_attribute("href") raised, `some none` means a null href. -/
structure LinkEl where
  hrefR : Option (Option String)
deriving DecidableEq

/-- One result card: each sub-query either raises (outer `none`),
finds nothing (`some none`) or finds a handle. -/
structure JobCard where
  h3R : Option (Option TextEl)
  h4R : Option (Option TextEl)
  linkTitleR : Option (Option LinkEl)
  linkAnyR : Option (Option LinkEl)
deriving DecidableEq

/-- A discovered posting. -/
structure Posting where
  title : String
  company : String
  url : String
  easy_apply : Bool
deriving DecidableEq

/-- Per-card extraction (the body of the per-card try): any raise drops
the card, a missing title or company element yields the empty string,
a missing or empty href drops the card, a kept href is stored with its
query string stripped. -/
def extract_card (easy : Bool) (c : JobCard) : Option Posting := do
  let titleEl ← c.h3R
  let compEl ← c.h4R
  let linkT ← c.linkTitleR
  let linkEl ← match linkT with
    | some l => pure (some l)
    | none => c.linkAnyR
  let title ← match titleEl with
    | some el => el.innerTextR.map trimStr
    | none => pure ""
  let company ← match compEl with
    | some el => el.innerTextR.map trimStr
    | none => pure ""
  let href ← match linkEl with
    | some l => l.hrefR
    | none => pure none
  match href with
  | some h =>
    if h != "" then some ⟨title, company, stripQuery h, easy⟩ else none
  | none => none

/-- The dedupe loop at the end of discovery: a seen-set of urls, first
occurrence wins. -/
def dedupeByUrl : List String → List Posting → List Posting
  | _, [] => []
  | seen, r :: rest =>
    if r.url ∈ seen then dedupeByUrl seen rest
    else r :: dedupeByUrl (r.url :: seen) rest

/-- scrape_jobs_on_search_page, extraction part: best-effort per-card
extraction followed by within-call dedup by url. -/
def scrape_jobs_on_search_page (cards : List JobCard) (easy : Bool) : List Posting :=
  dedupeByUrl [] (cards.filterMap (extract_card easy))

/-- An entry of the applied log. -/
structure WEntry where
  timestamp : String
  title : String
  company : String
  url : String
  status : String
  notes : String
deriving DecidableEq

/-- Observable actions of the worker loop on a posting. -/
inductive WEvent where
  | ranMachine (url : String)
  | notifiedNormal (url : String)
  | appendedEntry (e : WEntry)
deriving DecidableEq

def eventUrl : WEvent → String
  | .ranMachine u => u
  | .notifiedNormal u => u
  | .appendedEntry e => e.url

def mkEntry (ts : String) (job : Job) (status notes : String) : WEntry :=
  ⟨ts, job.title, job.company, job.url, status, notes⟩

/-- Pass A inner loop of worker_loop over one keyword: each job whose
url already appears in the applied log is skipped; otherwise the state
machine runs, an entry is appended and persisted, and the stop signal
is checked.  The clock supplies now_iso values; the stop schedule
supplies the per-job reads of the stop event. -/
def passAJobs (cfg : Config) : List String → List Bool → Page → List WEntry → List Job →
    List WEntry × List WEvent × Page
  | _, _, page, applied, [] => (applied, [], page)
  | clock, stops, page, applied, job :: rest =>
    if applied.any (fun e => e.url == job.url) then
      passAJobs cfg clock stops page applied rest
    else
      let rp := apply_easy_apply page job cfg
      let e := mkEntry (clock.headD "") job rp.1.status rp.1.notes
      let applied2 := applied ++ [e]
      let evs : List WEvent := [.ranMachine job.url, .appendedEntry e]
      if stops.headD false then (applied2, evs, rp.2)
      else
        let out := passAJobs cfg clock.tail stops.tail rp.2 applied2 rest
        (out.1, evs ++ out.2.1, out.2.2)

/-- Pass B per-job visit: navigate to the job, run the CAPTCHA gate,
then check both easy-apply probes (the second only when the first finds
nothing); none of this is inside a try, so a raise propagates. -/
def visitCheckEasy (url : String) : PageM Bool := do
  pgGoto url
  detect_captcha_and_wait
  let b1 ← pgQuery "button.jobs-apply-button"
  match b1 with
  | some _ => pure true
  | none => do
    let b2 ← pgQuery "xpath-button-easy-apply"
    pure b2.isSome

/-- Pass B inner loop of worker_loop: logged urls are skipped before
any visit; a visited job with an easy-apply trigger is skipped without
an entry; otherwise a notification is dispatched (when configured) and
a notified entry appended.  A raise during the visit propagates out of
the loop, aborting the pass. -/
def passBJobs (notifyNormal : Bool) : List String → List Bool → Page → List WEntry → List Job →
    List WEntry × List WEvent × Page
  | _, _, page, applied, [] => (applied, [], page)
  | clock, stops, page, applied, job :: rest =>
    if applied.any (fun e => e.url == job.url) then
      passBJobs notifyNormal clock stops page applied rest
    else
      match visitCheckEasy job.url page with
      | .error (_, p2) => (applied, [], p2)
      | .ok (true, p2) => passBJobs notifyNormal clock stops p2 applied rest
      | .ok (false, p2) =>
        let evs0 : List WEvent := if notifyNormal then [.notifiedNormal job.url] else []
        let e := mkEntry (clock.headD "") job "notified" "normal_apply"
        let applied2 := applied ++ [e]
        let evs := evs0 ++ [.appendedEntry e]
        if stops.headD false then (applied2, evs, p2)
        else
          let out := passBJobs notifyNormal clock.tail stops.tail p2 applied2 rest
          (out.1, evs ++ out.2.1, out.2.2)

/-- The idle sleep between cycles: up to `n` iterations, each checking
the stop signal before sleeping one second; returns the number of
one-second sleeps performed. -/
def idleLoop : Nat → List Bool → Nat
  | 0, _ => 0
  | n + 1, stops =>
    if stops.headD false then 0
    else 1 + idleLoop n stops.tail

/-- The cancellable wait at the end of each cycle: refresh-interval
minutes as a one-second-granularity loop. -/
def idle_wait (refreshMin : Nat) (stops : List Bool) : Nat :=
  idleLoop (refreshMin * 60) stops

/-- Worker lifecycle state: number of live worker-loop threads and the
stop event.  The check-and-spawn in api_start runs under worker_lock in
the source, so it is modelled as one atomic transition. -/
structure WorkerState where
  liveLoops : Nat
  stopSet : Bool
deriving DecidableEq

/-- api_start: alive check first; when alive, return already_running
with no side effect; otherwise clear the stop event and spawn. -/
def api_start (s : WorkerState) : String × WorkerState :=
  if s.liveLoops ≥ 1 then ("already_running", s)
  else ("started", ⟨s.liveLoops + 1, false⟩)

/-- api_stop: set the stop event and return immediately. -/
def api_stop (s : WorkerState) : String × WorkerState :=
  ("stopping", {s with stopSet := true})

/-- Lifecycle transitions: the two endpoints plus the worker thread
exiting. -/
inductive LifeOp where
  | opStart
  | opStop
  | opExit
deriving DecidableEq

def lifeStep (s : WorkerState) : LifeOp → WorkerState
  | .opStart => (api_start s).2
  | .opStop => (api_stop s).2
  | .opExit => {s with liveLoops := s.liveLoops - 1}

/-- Process start: no worker thread, stop event unset. -/
def initialWorkerState : WorkerState := ⟨0, false⟩

/-- JSON values, the model of what json.load can produce. -/
inductive JVal where
  | jnull
  | jbool (b : Bool)
  | jnum (s : String)
  | jstr (s : String)
  | jarr (xs : List JVal)
  | jobj (fields : List (String × JVal))

def chQuote : Char := Char.ofNat 34
def chLBrace : Char := Char.ofNat 123
def chRBrace : Char := Char.ofNat 125
def chLBrack : Char := Char.ofNat 91
def chRBrack : Char := Char.ofNat 93
def chComma : Char := Char.ofNat 44
def chColon : Char := Char.ofNat 58
def chBackslash : Char := Char.ofNat 92
def chMinus : Char := Char.ofNat 45
def chPlus : Char := Char.ofNat 43
def chDot : Char := Char.ofNat 46
def chSpace : Char := Char.ofNat 32
def chTab : Char := Char.ofNat 9
def chNL : Char := Char.ofNat 10
def chCR : Char := Char.ofNat 13

def isWs (c : Char) : Bool := c = chSpace || c = chTab || c = chNL || c = chCR

def skipWs : List Char → List Char
  | [] => []
  | c :: rest => if isWs c then skipWs rest else c :: rest

/-- Scan a JSON string body after the opening quote; an escape keeps
the escaped character raw (escape semantics are irrelevant here, only
whether the document parses). -/
def scanString : List Char → Option (String × List Char)
  | [] => none
  | c :: rest =>
    if c = chQuote then some ("", rest)
    else if c = chBackslash then
      match rest with
      | [] => none
      | e :: rest2 => (scanString rest2).map (fun pr => (String.mk [e] ++ pr.1, pr.2))
    else (scanString rest).map (fun pr => (String.mk [c] ++ pr.1, pr.2))

def isNumChar (c : Char) : Bool :=
  c.isDigit || c = chMinus || c = chPlus || c = chDot || c = 'e' || c = 'E'

def scanNum : List Char → List Char × List Char
  | [] => ([], [])
  | c :: rest =>
    if isNumChar c then
      let pr := scanNum rest
      (c :: pr.1, pr.2)
    else ([], c :: rest)

def startsWithChars : List Char → List Char → Option (List Char)
  | [], cs => some cs
  | _ :: _, [] => none
  | p :: ps, c :: cs => if c = p then startsWithChars ps cs else none

mutual

/-- Fuel-bounded recursive-descent JSON parser, the interface model of
json.load.  Fuel decreases on every recursive call; the wrapper passes
enough fuel for any input it is given. -/
def parseJVal : Nat → List Char → Option (JVal × List Char)
  | 0, _ => none
  | fuel + 1, cs =>
    match skipWs cs with
    | [] => none
    | c :: rest =>
      if c = chQuote then (scanString rest).map (fun pr => (.jstr pr.1, pr.2))
      else if c = chLBrack then parseArrItems fuel (skipWs rest) []
      else if c = chLBrace then parseObjItems fuel (skipWs rest) []
      else if c = 'n' then
        (startsWithChars [Char.ofNat 117, 'l', 'l'] rest).map (fun r => (.jnull, r))
      else if c = 't' then
        (startsWithChars ['r', Char.ofNat 117, 'e'] rest).map (fun r => (.jbool true, r))
      else if c = 'f' then
        (startsWithChars ['a', 'l', 's', 'e'] rest).map (fun r => (.jbool false, r))
      else if c.isDigit || c = chMinus then
        let pr := scanNum (c :: rest)
        some (.jnum (String.mk pr.1), pr.2)
      else none

def parseArrItems : Nat → List Char → List JVal → Option (JVal × List Char)
  | 0, _, _ => none
  | fuel + 1, cs, acc =>
    match cs with
    | [] => none
    | c :: rest =>
      if c = chRBrack && acc.isEmpty then some (.jarr [], rest)
      else
        match parseJVal fuel cs with
        | none => none
        | some (v, cs2) =>
          match skipWs cs2 with
          | [] => none
          | d :: rest2 =>
            if d = chComma then parseArrItems fuel (skipWs rest2) (acc ++ [v])
            else if d = chRBrack then some (.jarr (acc ++ [v]), rest2)
            else none

def parseObjItems : Nat → List Char → List (String × JVal) → Option (JVal × List Char)
  | 0, _, _ => none
  | fuel + 1, cs, acc =>
    match cs with
    | [] => none
    | c :: rest =>
      if c = chRBrace && acc.isEmpty then some (.jobj [], rest)
      else if c = chQuote then
        match scanString rest with
        | none => none
        | some (key, cs2) =>
          match skipWs cs2 with
          | [] => none
          | d :: rest2 =>
            if d = chColon then
              match parseJVal fuel rest2 with
              | none => none
              | some (v, cs3) =>
                match skipWs cs3 with
                | [] => none
                | e2 :: rest3 =>
                  if e2 = chComma then parseObjItems fuel (skipWs rest3) (acc ++ [(key, v)])
                  else if e2 = chRBrace then some (.jobj (acc ++ [(key, v)]), rest3)
                  else none
            else none
      else none

end

/-- json.load on a whole document: parse one value and require only
trailing whitespace after it. -/
def json_load (s : String) : Option JVal :=
  match parseJVal (2 * s.length + 2) s.data with
  | some (v, rest) => if (skipWs rest).isEmpty then some v else none
  | none => none

/-- safe_load_applied_log: a missing file, an unparseable file, or a
parsed value that is not a list all yield the empty log; a parsed list
is returned as-is.  The file argument is `none` when the log file does
not exist. -/
def safe_load_applied_log (file : Option String) : List JVal :=
  match file with
  | none => []
  | some s =>
    match json_load s with
    | none => []
    | some (.jarr xs) => xs
    | some _ => []

theorem run_pure {α : Type} (a : α) (p : Page) : (pure a : PageM α) p = .ok (a, p) := rfl

theorem run_bind {α β : Type} (m : PageM α) (f : α → PageM β) (p : Page) :
    (m >>= f) p = match m p with
      | .ok (a, p2) => f a p2
      | .error e => .error e := rfl

theorem worker_invariant_step (s : WorkerState) (op : LifeOp) (h : s.liveLoops ≤ 1) :
    (lifeStep s op).liveLoops ≤ 1 := by
  cases op with
  | opStart =>
    simp only [lifeStep, api_start]
    split
    · exact h
    · simp
      omega
  | opStop => exact h
  | opExit =>
    simp only [lifeStep]
    omega

theorem worker_invariant_fold : ∀ (ops : List LifeOp) (s : WorkerState), s.liveLoops ≤ 1 →
    (ops.foldl lifeStep s).liveLoops ≤ 1 := by
  intro ops
  induction ops with
  | nil => intro s h; exact h
  | cons op rest ih =>
    intro s h
    exact ih (lifeStep s op) (worker_invariant_step s op h)

/-- Claim C7: starting while a worker loop is alive reports
already_running with no side effects; two consecutive starts while
running both report already_running and leave the state unchanged; and
under any sequence of start/stop/worker-exit transitions from process
start, at most one worker loop is ever alive. -/
theorem claim_C7_idempotent_start :
    (∀ s : WorkerState, s.liveLoops ≥ 1 → api_start s = ("already_running", s)) ∧
    (∀ s : WorkerState, s.liveLoops ≥ 1 →
      (api_start s).1 = "already_running" ∧
      (api_start (api_start s).2).1 = "already_running" ∧
      (api_start (api_start s).2).2 = s) ∧
    (∀ ops : List LifeOp, (ops.foldl lifeStep initialWorkerState).liveLoops ≤ 1) := by
  refine ⟨?_, ?_, ?_⟩
  · intro s h
    simp [api_start, h]
  · intro s h
    simp [api_start, h]
  · intro ops
    exact worker_invariant_fold ops initialWorkerState (by simp [initialWorkerState])

theorem claim_C7_witness :
    api_start ⟨1, true⟩ = ("already_running", ⟨1, true⟩) ∧
    (api_start ⟨1, false⟩).1 = "already_running" ∧
    (api_start (api_start ⟨1, false⟩).2).1 = "already_running" ∧
    (api_start (api_start ⟨1, false⟩).2).2 = (⟨1, false⟩ : WorkerState) :=
  ⟨claim_C7_idempotent_start.1 ⟨1, true⟩ (by decide),
   (claim_C7_idempotent_start.2.1 ⟨1, false⟩ (by decide)).1,
   (claim_C7_idempotent_start.2.1 ⟨1, false⟩ (by decide)).2.1,
   (claim_C7_idempotent_start.2.1 ⟨1, false⟩ (by decide)).2.2⟩

theorem idleLoop_le : ∀ (n : Nat) (stops : List Bool), idleLoop n stops ≤ n := by
  intro n
  induction n with
  | zero => intro stops; simp [idleLoop]
  | succ m ih =>
    intro stops
    simp only [idleLoop]
    split
    · omega
    · have := ih stops.tail
      omega

theorem idleLoop_stop : ∀ (n k : Nat) (stops : List Bool),
    stops.getD k false = true → idleLoop n stops ≤ k := by
  intro n
  induction n with
  | zero => intro k stops _; simp [idleLoop]
  | succ m ih =>
    intro k stops hk
    simp only [idleLoop]
    split
    · omega
    · rename_i hfalse
      cases k with
      | zero =>
        exfalso
        cases stops with
        | nil => simp [List.getD] at hk
        | cons b t =>
          simp [List.headD] at hfalse
          simp [List.getD, hfalse] at hk
      | succ j =>
        have hk2 : stops.tail.getD j false = true := by
          cases stops with
          | nil => simp [List.getD] at hk
          | cons b t => simpa [List.getD] using hk
        have := ih j stops.tail hk2
        omega

/-- Claim C8: the idle wait is bounded by the full refresh interval in
seconds, and whenever the stop signal reads true at the k-th one-second
check, at most k one-second sleeps are performed, so the loop exits
within one second of granularity of the signal. -/
theorem claim_C8_responsive_idle_sleep :
    (∀ (m : Nat) (stops : List Bool), idle_wait m stops ≤ m * 60) ∧
    (∀ (m k : Nat) (stops : List Bool), stops.getD k false = true →
      idle_wait m stops ≤ k) := by
  constructor
  · intro m stops
    exact idleLoop_le (m * 60) stops
  · intro m k stops h
    exact idleLoop_stop (m * 60) k stops h

theorem claim_C8_witness :
    idle_wait 2 [] ≤ 120 ∧ idle_wait 5 [false, true] ≤ 1 :=
  ⟨claim_C8_responsive_idle_sleep.1 2 [],
   claim_C8_responsive_idle_sleep.2 5 1 [false, true] (by decide)⟩

/-- Claim C9: loading the applied log never fails: a missing file, an
unparseable file (such as the text "{not json", written with escaped
braces), or a parse result that is not a list all yield the empty
in-memory log, and a parsed list is returned as-is. -/
theorem claim_C9_log_resilience :
    safe_load_applied_log none = [] ∧
    safe_load_applied_log (some "\x7bnot json") = [] ∧
    (∀ s : String, json_load s = none → safe_load_applied_log (some s) = []) ∧
    (∀ (s : String) (v : JVal), json_load s = some v → (∀ xs : List JVal, v ≠ .jarr xs) →
      safe_load_applied_log (some s) = []) ∧
    (∀ (s : String) (xs : List JVal), json_load s = some (.jarr xs) →
      safe_load_applied_log (some s) = xs) := by
  refine ⟨rfl, rfl, ?_, ?_, ?_⟩
  · intro s h
    simp [safe_load_applied_log, h]
  · intro s v h hne
    cases v with
    | jarr xs => exact absurd rfl (hne xs)
    | jnull => simp [safe_load_applied_log, h]
    | jbool b => simp [safe_load_applied_log, h]
    | jnum n => simp [safe_load_applied_log, h]
    | jstr t => simp [safe_load_applied_log, h]
    | jobj fs => simp [safe_load_applied_log, h]
  · intro s xs h
    simp [safe_load_applied_log, h]

theorem claim_C9_witness :
    safe_load_applied_log (some "not valid") = [] ∧
    safe_load_applied_log (some "0") = [] ∧
    safe_load_applied_log (some "[]") = [] :=
  ⟨claim_C9_log_resilience.2.2.1 "not valid" rfl,
   claim_C9_log_resilience.2.2.2.1 "0" (.jnum "0") rfl
     (fun xs h => JVal.noConfusion h),
   claim_C9_log_resilience.2.2.2.2 "[]" [] rfl⟩

theorem captchaSpin_clearsAfter : ∀ (pre : List Round) (r : Round) (rest : List Round),
    (∀ x ∈ pre, captchaPred x = .ok true) → captchaPred r = .ok false →
    captchaSpin (pre ++ r :: rest) = .cleared pre.length rest := by
  intro pre
  induction pre with
  | nil =>
    intro r rest _ hr
    simp [captchaSpin, hr]
  | cons q qs ih =>
    intro r rest hall hr
    have hq : captchaPred q = .ok true := hall q (List.mem_cons_self q qs)
    have hrec := ih r rest (fun x hx => hall x (List.mem_cons_of_mem q hx)) hr
    simp [captchaSpin, hq, hrec]

/-- Claim C6: the CAPTCHA gate returns immediately, with no flash and
no sleep, when its detection predicate is false on entry (including on
an exhausted trace); and when the predicate is true on entry it keeps
flashing and sleeping exactly while the predicate holds, returning only
at the round where the predicate becomes false, at which point it
resets the visual cue. -/
theorem claim_C6_captcha_gate :
    (∀ p : Page, p.rounds = [] →
      detect_captcha_and_wait p = .ok ((), {p with gateCalls := p.gateCalls + 1})) ∧
    (∀ (p : Page) (r : Round) (rest : List Round), p.rounds = r :: rest →
      captchaPred r = .ok false →
      detect_captcha_and_wait p
        = .ok ((), {p with gateCalls := p.gateCalls + 1, rounds := rest})) ∧
    (∀ (p : Page) (q : Round) (pre : List Round) (r : Round) (rest : List Round),
      p.rounds = q :: (pre ++ r :: rest) →
      captchaPred q = .ok true → (∀ x ∈ pre, captchaPred x = .ok true) →
      captchaPred r = .ok false →
      detect_captcha_and_wait p = .ok ((), {p with
        rounds := rest,
        gateCalls := p.gateCalls + 1,
        flashes := p.flashes + pre.length,
        gateSleeps := p.gateSleeps + pre.length,
        restores := p.restores + 1})) := by
  refine ⟨?_, ?_, ?_⟩
  · intro p h
    simp [detect_captcha_and_wait, h]
  · intro p r rest h hr
    simp [detect_captcha_and_wait, h, hr]
  · intro p q pre r rest h hq hall hr
    simp [detect_captcha_and_wait, h, hq, captchaSpin_clearsAfter pre r rest hall hr]

def roundTrue : Round := ⟨some "page with CAPTCHA challenge", .absent⟩

def roundFalse : Round := ⟨some "all clear", .absent⟩

def pageC6a : Page := ⟨[], [roundFalse], [], [], [], [], [], 0, 0, 0, 0, 0⟩

def pageC6b : Page := ⟨[], [roundTrue, roundTrue, roundFalse], [], [], [], [], [], 0, 0, 0, 0, 0⟩

theorem claim_C6_witness :
    detect_captcha_and_wait pageC6a
      = .ok ((), {pageC6a with gateCalls := 1, rounds := []}) ∧
    detect_captcha_and_wait pageC6b
      = .ok ((), {pageC6b with
          rounds := [],
          gateCalls := 1,
          flashes := 1,
          gateSleeps := 1,
          restores := 1}) :=
  ⟨claim_C6_captcha_gate.2.1 pageC6a roundFalse [] rfl rfl,
   claim_C6_captcha_gate.2.2 pageC6b roundTrue [roundTrue] roundFalse [] rfl
     rfl (by intro x hx; rw [List.mem_singleton] at hx; subst hx; rfl) rfl⟩

theorem dedupeByUrl_nodup : ∀ (l : List Posting) (seen : List String),
    ((dedupeByUrl seen l).map Posting.url).Nodup ∧
    (∀ x ∈ dedupeByUrl seen l, x.url ∉ seen) := by
  intro l
  induction l with
  | nil => intro seen; simp [dedupeByUrl]
  | cons r rest ih =>
    intro seen
    by_cases h : r.url ∈ seen
    · simpa [dedupeByUrl, h] using ih seen
    · simp only [dedupeByUrl, h, if_false, List.map_cons, List.nodup_cons]
      refine ⟨⟨?_, (ih (r.url :: seen)).1⟩, ?_⟩
      · intro hmem
        obtain ⟨x, hx, hxu⟩ := List.mem_map.mp hmem
        have := (ih (r.url :: seen)).2 x hx
        exact this (by simp [hxu])
      · intro x hx
        rcases List.mem_cons.mp hx with heq | hx2
        · subst heq; exact h
        · intro hxs
          exact (ih (r.url :: seen)).2 x hx2 (List.mem_cons_of_mem _ hxs)

theorem dedupeByUrl_find : ∀ (l : List Posting) (seen : List String) (u : String),
    u ∉ seen →
    (dedupeByUrl seen l).find? (fun x => x.url == u) = l.find? (fun x => x.url == u) := by
  intro l
  induction l with
  | nil => intro seen u _; simp [dedupeByUrl]
  | cons r rest ih =>
    intro seen u hu
    by_cases h : r.url ∈ seen
    · have hne : (r.url == u) = false := by
        apply beq_eq_false_iff_ne.mpr
        intro heq
        exact hu (heq ▸ h)
      simp only [dedupeByUrl, h, if_true, List.find?]
      rw [hne, ih seen u hu]
    · simp only [dedupeByUrl, h, if_false, List.find?]
      cases hb : (r.url == u) with
      | true => rfl
      | false =>
        apply ih (r.url :: seen) u
        intro hmem
        rcases List.mem_cons.mp hmem with heq | hseen
        · exact absurd (beq_iff_eq.mpr heq.symm) (by simp [hb])
        · exact hu hseen

theorem dedupeByUrl_sublist : ∀ (l : List Posting) (seen : List String),
    (dedupeByUrl seen l).Sublist l := by
  intro l
  induction l with
  | nil => intro seen; simp [dedupeByUrl]
  | cons r rest ih =>
    intro seen
    by_cases h : r.url ∈ seen
    · simpa [dedupeByUrl, h] using (ih seen).cons r
    · simpa [dedupeByUrl, h] using (ih (r.url :: seen)).cons₂ r

/-- Claim C5: discovery extraction keeps at most one posting per url
(first occurrence in card order wins, and the output is a sublist of
the raw per-card extraction), drops any card without a resolvable link
(link queries finding nothing, or a null href), yields empty-string
title and company when those elements are missing, and stores urls with
the query string stripped, as on the concrete href of the spec. -/
theorem claim_C5_discovery_extraction :
    (∀ (cards : List JobCard) (easy : Bool),
      ((scrape_jobs_on_search_page cards easy).map Posting.url).Nodup) ∧
    (∀ (cards : List JobCard) (easy : Bool),
      (scrape_jobs_on_search_page cards easy).Sublist
        (cards.filterMap (extract_card easy))) ∧
    (∀ (cards : List JobCard) (easy : Bool) (u : String),
      (scrape_jobs_on_search_page cards easy).find? (fun x => x.url == u)
        = (cards.filterMap (extract_card easy)).find? (fun x => x.url == u)) ∧
    (∀ (easy : Bool) (t c : Option (Option TextEl)),
      extract_card easy ⟨t, c, some none, some none⟩ = none) ∧
    (∀ (easy : Bool) (t c : Option (Option TextEl)) (la : Option (Option LinkEl)),
      extract_card easy ⟨t, c, some (some ⟨some none⟩), la⟩ = none) ∧
    (∀ (easy : Bool) (la : Option (Option LinkEl)) (h : String),
      extract_card easy ⟨some none, some none, some (some ⟨some (some h)⟩), la⟩
        = if h != "" then some ⟨"", "", stripQuery h, easy⟩ else none) ∧
    (stripQuery "/jobs/view/123?trk=xyz" = "/jobs/view/123") ∧
    (scrape_jobs_on_search_page
        [⟨some (some ⟨some " T "⟩), some (some ⟨some "C"⟩),
          some (some ⟨some (some "/jobs/view/123?trk=xyz")⟩), none⟩,
         ⟨some (some ⟨some "T2"⟩), some (some ⟨some "C2"⟩),
          some (some ⟨some (some "/jobs/view/123?x=1")⟩), none⟩] true
      = [⟨"T", "C", "/jobs/view/123", true⟩]) := by
  refine ⟨?_, ?_, ?_, ?_, ?_, ?_, rfl, rfl⟩
  · intro cards easy
    exact (dedupeByUrl_nodup (cards.filterMap (extract_card easy)) []).1
  · intro cards easy
    exact dedupeByUrl_sublist (cards.filterMap (extract_card easy)) []
  · intro cards easy u
    exact dedupeByUrl_find (cards.filterMap (extract_card easy)) [] u (by simp)
  · intro easy t c
    rcases t with _ | t2
    · rfl
    · rcases c with _ | c2
      · rfl
      · rcases t2 with _ | el
        · rcases c2 with _ | el2
          · rfl
          · cases h2 : el2.innerTextR <;> simp [extract_card, h2]
        · cases h1 : el.innerTextR with
          | none => simp [extract_card, h1]
          | some s =>
            rcases c2 with _ | el2
            · simp [extract_card, h1]
            · cases h2 : el2.innerTextR <;> simp [extract_card, h1, h2]
  · intro easy t c la
    rcases t with _ | t2
    · rfl
    · rcases c with _ | c2
      · rcases t2 with _ | el
        · rfl
        · cases h1 : el.innerTextR <;> simp [extract_card, h1]
      · rcases t2 with _ | el
        · rcases c2 with _ | el2
          · rfl
          · cases h2 : el2.innerTextR <;> simp [extract_card, h2]
        · cases h1 : el.innerTextR with
          | none => simp [extract_card, h1]
          | some s =>
            rcases c2 with _ | el2
            · simp [extract_card, h1]
            · cases h2 : el2.innerTextR <;> simp [extract_card, h1, h2]
  · intro easy la h
    rfl

theorem passAJobs_no_logged_url (cfg : Config) (u : String) :
    ∀ (jobs : List Job) (clock : List String) (stops : List Bool) (page : Page)
      (applied : List WEntry), (∃ e ∈ applied, e.url = u) →
      ∀ ev ∈ (passAJobs cfg clock stops page applied jobs).2.1, eventUrl ev ≠ u := by
  intro jobs
  induction jobs with
  | nil => intro clock stops page applied _ ev hev; simp [passAJobs] at hev
  | cons job rest ih =>
    intro clock stops page applied hex ev hev
    by_cases hc : applied.any (fun e => e.url == job.url)
    · rw [passAJobs, if_pos hc] at hev
      exact ih clock stops page applied hex ev hev
    · have hne : job.url ≠ u := by
        intro heq
        apply hc
        obtain ⟨e, he, heu⟩ := hex
        exact List.any_eq_true.mpr ⟨e, he, beq_iff_eq.mpr (heu.trans heq.symm)⟩
      rw [passAJobs, if_neg hc] at hev
      set rp := apply_easy_apply page job cfg with hrp
      set entry := mkEntry (clock.headD "") job rp.1.status rp.1.notes with hentry
      by_cases hs : stops.headD false
      · rw [if_pos hs] at hev
        simp only [List.mem_cons, List.not_mem_nil, or_false] at hev
        rcases hev with rfl | rfl
        · simp [eventUrl, hne]
        · simp [eventUrl, hentry, mkEntry, hne]
      · rw [if_neg hs] at hev
        simp only [List.mem_append, List.mem_cons, List.not_mem_nil, or_false] at hev
        rcases hev with (rfl | rfl) | hev
        · simp [eventUrl, hne]
        · simp [eventUrl, hentry, mkEntry, hne]
        · refine ih clock.tail stops.tail rp.2 (applied ++ [entry]) ?_ ev hev
          obtain ⟨e, he, heu⟩ := hex
          exact ⟨e, List.mem_append_left _ he, heu⟩

theorem passBJobs_no_logged_url (notif : Bool) (u : String) :
    ∀ (jobs : List Job) (clock : List String) (stops : List Bool) (page : Page)
      (applied : List WEntry), (∃ e ∈ applied, e.url = u) →
      ∀ ev ∈ (passBJobs notif clock stops page applied jobs).2.1, eventUrl ev ≠ u := by
  intro jobs
  induction jobs with
  | nil => intro clock stops page applied _ ev hev; simp [passBJobs] at hev
  | cons job rest ih =>
    intro clock stops page applied hex ev hev
    by_cases hc : applied.any (fun e => e.url == job.url)
    · rw [passBJobs, if_pos hc] at hev
      exact ih clock stops page applied hex ev hev
    · have hne : job.url ≠ u := by
        intro heq
        apply hc
        obtain ⟨e, he, heu⟩ := hex
        exact List.any_eq_true.mpr ⟨e, he, beq_iff_eq.mpr (heu.trans heq.symm)⟩
      rw [passBJobs, if_neg hc] at hev
      cases hv : visitCheckEasy job.url page with
      | error e2 =>
        obtain ⟨msg, p2⟩ := e2
        rw [hv] at hev
        simp at hev
      | ok v =>
        obtain ⟨found, p2⟩ := v
        rw [hv] at hev
        cases found with
        | true => exact ih clock stops p2 applied hex ev hev
        | false =>
          dsimp only at hev
          set entry := mkEntry (clock.headD "") job "notified" "normal_apply" with hentry
          by_cases hs : stops.headD false
          · rw [if_pos hs] at hev
            simp only [List.mem_append, List.mem_cons, List.not_mem_nil, or_false] at hev
            rcases hev with hev | rfl
            · by_cases hn : notif
              · simp only [hn, if_true, List.mem_cons, List.not_mem_nil, or_false] at hev
                subst hev; simp [eventUrl, hne]
              · simp [hn] at hev
            · simp [eventUrl, hentry, mkEntry, hne]
          · rw [if_neg hs] at hev
            simp only [List.mem_append, List.mem_cons, List.not_mem_nil, or_false] at hev
            rcases hev with (hev | rfl) | hev
            · by_cases hn : notif
              · simp only [hn, if_true, List.mem_cons, List.not_mem_nil, or_false] at hev
                subst hev; simp [eventUrl, hne]
              · simp [hn] at hev
            · simp [eventUrl, hentry, mkEntry, hne]
            · refine ih clock.tail stops.tail p2 (applied ++ [entry]) ?_ ev hev
              obtain ⟨e, he, heu⟩ := hex
              exact ⟨e, List.mem_append_left _ he, heu⟩

/-- Claim C2: if a posting url already appears in an entry of the
applied log, then neither worker pass produces any event for it: the
state machine is not run, no notification is dispatched, and no entry
is appended, regardless of the status recorded in the existing entry. -/
theorem claim_C2_dedup_invariant :
    ∀ (u : String) (cfg : Config) (notif : Bool) (clockA clockB : List String)
      (stopsA stopsB : List Bool) (pageA pageB : Page) (applied : List WEntry)
      (jobsA jobsB : List Job),
    (∃ e ∈ applied, e.url = u) →
    (∀ ev ∈ (passAJobs cfg clockA stopsA pageA applied jobsA).2.1, eventUrl ev ≠ u) ∧
    (∀ ev ∈ (passBJobs notif clockB stopsB pageB applied jobsB).2.1, eventUrl ev ≠ u) := by
  intro u cfg notif clockA clockB stopsA stopsB pageA pageB applied jobsA jobsB hex
  exact ⟨passAJobs_no_logged_url cfg u jobsA clockA stopsA pageA applied hex,
         passBJobs_no_logged_url notif u jobsB clockB stopsB pageB applied hex⟩

def entryC2 : WEntry := ⟨"2024-01-01", "T", "C", "/jobs/view/9", "error", "boom"⟩

def jobC2 : Job := ⟨"T", "C", "/jobs/view/9", true⟩

def pageC2 : Page := ⟨[], [], [], [], [], [], [], 0, 0, 0, 0, 0⟩

def cfgC2 : Config := ⟨true, "", true, "r1", "r2"⟩

theorem claim_C2_witness :
    ¬ (WEvent.ranMachine "/jobs/view/9")
        ∈ (passAJobs cfgC2 [] [] pageC2 [entryC2] [jobC2]).2.1 ∧
    ¬ (WEvent.notifiedNormal "/jobs/view/9")
        ∈ (passBJobs true [] [] pageC2 [entryC2] [jobC2]).2.1 :=
  ⟨fun h => (claim_C2_dedup_invariant "/jobs/view/9" cfgC2 true [] [] [] [] pageC2 pageC2
      [entryC2] [jobC2] [jobC2] ⟨entryC2, by simp, rfl⟩).1 _ h rfl,
   fun h => (claim_C2_dedup_invariant "/jobs/view/9" cfgC2 true [] [] [] [] pageC2 pageC2
      [entryC2] [jobC2] [jobC2] ⟨entryC2, by simp, rfl⟩).2 _ h rfl⟩

theorem click_by_text_eff : ∀ (ws : List String) (p : Page),
    ∃ (kq : Nat) (cl : List String) (b : Bool),
      click_by_text ws p = .ok (b, {p with
        queries := p.queries.drop kq,
        clicks := p.clicks ++ cl}) ∧
      (b = true → ∃ w, w ∈ ws ∧ cl = [w]) ∧
      (b = false → cl = []) := by
  intro ws
  induction ws with
  | nil =>
    intro p
    refine ⟨0, [], false, ?_, by simp, fun _ => rfl⟩
    show Except.ok (false, p) = _
    rw [List.drop_zero, List.append_nil]
  | cons w rest ih =>
    intro p
    obtain ⟨g, r, q, qa, fc, cl, fl, up, f, gs, rs, gc⟩ := p
    cases q with
    | nil =>
      obtain ⟨kq, cl1, b, h1, h2, h3⟩ := ih ⟨g, r, [], qa, fc, cl, fl, up, f, gs, rs, gc⟩
      exact ⟨kq, cl1, b, h1,
        fun hb => (h2 hb).imp (fun w2 hw => ⟨List.mem_cons_of_mem w hw.1, hw.2⟩), h3⟩
    | cons qr qtail =>
      cases qr with
      | found e =>
        obtain ⟨eit, eva, ecm, efm, esf⟩ := e
        cases ecm with
        | none =>
          exact ⟨1, [w], true, rfl, fun _ => ⟨w, List.mem_cons_self w rest, rfl⟩, by simp⟩
        | some msg =>
          obtain ⟨kq, cl1, b, h1, h2, h3⟩ :=
            ih ⟨g, r, qtail, qa, fc, cl, fl, up, f, gs, rs, gc⟩
          exact ⟨kq + 1, cl1, b, h1,
            fun hb => (h2 hb).imp (fun w2 hw => ⟨List.mem_cons_of_mem w hw.1, hw.2⟩), h3⟩
      | absent =>
        obtain ⟨kq, cl1, b, h1, h2, h3⟩ :=
          ih ⟨g, r, qtail, qa, fc, cl, fl, up, f, gs, rs, gc⟩
        exact ⟨kq + 1, cl1, b, h1,
          fun hb => (h2 hb).imp (fun w2 hw => ⟨List.mem_cons_of_mem w hw.1, hw.2⟩), h3⟩
      | qboom msg =>
        obtain ⟨kq, cl1, b, h1, h2, h3⟩ :=
          ih ⟨g, r, qtail, qa, fc, cl, fl, up, f, gs, rs, gc⟩
        exact ⟨kq + 1, cl1, b, h1,
          fun hb => (h2 hb).imp (fun w2 hw => ⟨List.mem_cons_of_mem w hw.1, hw.2⟩), h3⟩

def roundSafe (r : Round) : Bool :=
  match captchaPred r with
  | .error _ => false
  | .ok _ => true

/-- No round of the pending trace would raise inside the gate. -/
def roundsSafe (l : List Round) : Bool := l.all roundSafe

theorem dropDropEq {α : Type} (l : List α) (a b : Nat) :
    (l.drop a).drop b = l.drop (a + b) := by
  rw [List.drop_drop, Nat.add_comm]

theorem roundsSafe_drop (l : List Round) (k : Nat) (h : roundsSafe l = true) :
    roundsSafe (l.drop k) = true := by
  simp only [roundsSafe, List.all_eq_true] at h ⊢
  intro r hr
  exact h r (List.mem_of_mem_drop hr)

theorem captchaSpin_safe : ∀ (l : List Round), roundsSafe l = true →
    ∃ (n k : Nat), captchaSpin l = .cleared n (l.drop k) := by
  intro l
  induction l with
  | nil => intro _; exact ⟨0, 0, rfl⟩
  | cons r rest ih =>
    intro h
    have hr : roundSafe r = true := by
      simp only [roundsSafe, List.all_cons, Bool.and_eq_true] at h; exact h.1
    have hrest : roundsSafe rest = true := by
      simp only [roundsSafe, List.all_cons, Bool.and_eq_true] at h; exact h.2
    cases hp : captchaPred r with
    | error msg => simp [roundSafe, hp] at hr
    | ok b =>
      cases b with
      | false =>
        refine ⟨0, 1, ?_⟩
        simp [captchaSpin, hp]
      | true =>
        obtain ⟨n, k, hs⟩ := ih hrest
        refine ⟨n + 1, k + 1, ?_⟩
        simp [captchaSpin, hp, hs]

theorem gate_eff (p : Page) (h : roundsSafe p.rounds = true) :
    ∃ (kr n rr : Nat), detect_captcha_and_wait p = .ok ((), {p with
      rounds := p.rounds.drop kr,
      gateCalls := p.gateCalls + 1,
      flashes := p.flashes + n,
      gateSleeps := p.gateSleeps + n,
      restores := p.restores + rr}) := by
  obtain ⟨g, r0, q, qa, fc, cl, fl, up, f, gs, rs, gc⟩ := p
  simp only at h
  cases r0 with
  | nil =>
    refine ⟨0, 0, 0, ?_⟩
    simp [detect_captcha_and_wait]
  | cons r rest =>
    have hr : roundSafe r = true := by
      simp only [roundsSafe, List.all_cons, Bool.and_eq_true] at h; exact h.1
    have hrest : roundsSafe rest = true := by
      simp only [roundsSafe, List.all_cons, Bool.and_eq_true] at h; exact h.2
    cases hp : captchaPred r with
    | error msg => simp [roundSafe, hp] at hr
    | ok b =>
      cases b with
      | false =>
        refine ⟨1, 0, 0, ?_⟩
        simp [detect_captcha_and_wait, hp]
      | true =>
        obtain ⟨n, k, hs⟩ := captchaSpin_safe rest hrest
        refine ⟨k + 1, n, 1, ?_⟩
        simp [detect_captcha_and_wait, hp, hs]

theorem fillPhoneSels_eff : ∀ (sels : List String) (phone : String) (p : Page),
    ∃ (kq : Nat) (fl2 : List (String × String)),
      fillPhoneSels phone sels p = .ok ((), {p with
        queries := p.queries.drop kq,
        fills := p.fills ++ fl2}) := by
  intro sels
  induction sels with
  | nil =>
    intro phone p
    refine ⟨0, [], ?_⟩
    show Except.ok ((), p) = _
    rw [List.drop_zero, List.append_nil]
  | cons sel rest ih =>
    intro phone p
    obtain ⟨g, r, q, qa, fc, cl, fl, up, f, gs, rs, gc⟩ := p
    cases q with
    | nil => exact ih phone ⟨g, r, [], qa, fc, cl, fl, up, f, gs, rs, gc⟩
    | cons qr qtail =>
      cases qr with
      | found e =>
        obtain ⟨eit, eva, ecm, efm, esf⟩ := e
        cases efm with
        | none =>
          obtain ⟨kq, fl2, h1⟩ :=
            ih phone ⟨g, r, qtail, qa, fc, cl, fl ++ [(sel, phone)], up, f, gs, rs, gc⟩
          rw [List.append_assoc] at h1
          exact ⟨kq + 1, [(sel, phone)] ++ fl2, h1⟩
        | some msg =>
          obtain ⟨kq, fl2, h1⟩ := ih phone ⟨g, r, qtail, qa, fc, cl, fl, up, f, gs, rs, gc⟩
          exact ⟨kq + 1, fl2, h1⟩
      | absent =>
        obtain ⟨kq, fl2, h1⟩ := ih phone ⟨g, r, qtail, qa, fc, cl, fl, up, f, gs, rs, gc⟩
        exact ⟨kq + 1, fl2, h1⟩
      | qboom msg =>
        obtain ⟨kq, fl2, h1⟩ := ih phone ⟨g, r, qtail, qa, fc, cl, fl, up, f, gs, rs, gc⟩
        exact ⟨kq + 1, fl2, h1⟩

theorem fillPhone_eff (phone : String) (p : Page) :
    ∃ (kq : Nat) (fl2 : List (String × String)),
      fillPhone phone p = .ok ((), {p with
        queries := p.queries.drop kq,
        fills := p.fills ++ fl2}) := by
  unfold fillPhone
  cases hip : (phone != "") with
  | true =>
    rw [if_pos rfl]
    exact fillPhoneSels_eff phoneSelectors phone p
  | false =>
    rw [if_neg (by simp [hip])]
    refine ⟨0, [], ?_⟩
    show Except.ok ((), p) = _
    rw [List.drop_zero, List.append_nil]

theorem uploadResume_eff (rds rse t : String) (p : Page) :
    ∃ (kq kf u : Nat),
      uploadResume rds rse t p = .ok ((), {p with
        queries := p.queries.drop kq,
        fileChecks := p.fileChecks.drop kf,
        uploads := p.uploads + u}) := by
  obtain ⟨g, r, q, qa, fc, cl, fl, up, f, gs, rs, gc⟩ := p
  cases q with
  | nil => exact ⟨0, 0, 0, rfl⟩
  | cons qr qtail =>
    cases qr with
    | found e =>
      obtain ⟨eit, eva, ecm, efm, esf⟩ := e
      cases fc with
      | nil => exact ⟨1, 0, 0, rfl⟩
      | cons b fcr =>
        cases b with
        | false => exact ⟨1, 1, 0, rfl⟩
        | true =>
          cases esf with
          | none => exact ⟨1, 1, 1, rfl⟩
          | some msg => exact ⟨1, 1, 0, rfl⟩
    | absent => exact ⟨1, 0, 0, rfl⟩
    | qboom msg => exact ⟨1, 0, 0, rfl⟩

theorem dismissModal_eff (p : Page) :
    ∃ (kq : Nat) (cl2 : List String),
      dismissModal p = .ok ((), {p with
        queries := p.queries.drop kq,
        clicks := p.clicks ++ cl2}) := by
  obtain ⟨g, r, q, qa, fc, cl, fl, up, f, gs, rs, gc⟩ := p
  cases q with
  | nil =>
    refine ⟨0, [], ?_⟩
    rw [List.append_nil]
    rfl
  | cons qr qtail =>
    cases qr with
    | found e =>
      obtain ⟨eit, eva, ecm, efm, esf⟩ := e
      cases ecm with
      | none => exact ⟨1, ["dismiss"], rfl⟩
      | some msg =>
        refine ⟨1, [], ?_⟩
        rw [List.append_nil]
        rfl
    | absent =>
      refine ⟨1, [], ?_⟩
      rw [List.append_nil]
      rfl
    | qboom msg =>
      refine ⟨1, [], ?_⟩
      rw [List.append_nil]
      rfl

theorem advanceLoop_eff : ∀ (n : Nat) (p : Page), roundsSafe p.rounds = true →
    ∃ (kq kr ff rr : Nat) (cl2 : List String),
      advanceLoop n p = .ok ((), {p with
        queries := p.queries.drop kq,
        rounds := p.rounds.drop kr,
        clicks := p.clicks ++ cl2,
        gateCalls := p.gateCalls + cl2.length,
        flashes := p.flashes + ff,
        gateSleeps := p.gateSleeps + ff,
        restores := p.restores + rr}) ∧
      cl2.length ≤ n ∧ (∀ w ∈ cl2, w ∈ advanceClickVocab) := by
  intro n
  induction n with
  | zero =>
    intro p _
    refine ⟨0, 0, 0, 0, [], ?_, by simp, by simp⟩
    show Except.ok ((), p) = _
    simp
  | succ m ih =>
    intro p hs
    obtain ⟨g, r, q, qa, fc, cl, fl, up, f, gs, rs, gc⟩ := p
    have hsc : roundsSafe r = true := hs
    obtain ⟨kq1, cl1, b, h1, h2, h3⟩ :=
      click_by_text_eff advanceClickVocab ⟨g, r, q, qa, fc, cl, fl, up, f, gs, rs, gc⟩
    cases b with
    | false =>
      have hcl : cl1 = [] := h3 rfl
      subst hcl
      have h1c : click_by_text advanceClickVocab ⟨g, r, q, qa, fc, cl, fl, up, f, gs, rs, gc⟩
          = .ok (false, ⟨g, r, q.drop kq1, qa, fc, cl ++ [], fl, up, f, gs, rs, gc⟩) := h1
      rw [List.append_nil] at h1c
      refine ⟨kq1, 0, 0, 0, [], ?_, by simp, by simp⟩
      have step1 : advanceLoop (m + 1) (⟨g, r, q, qa, fc, cl, fl, up, f, gs, rs, gc⟩ : Page)
          = (pure () : PageM Unit) ⟨g, r, q.drop kq1, qa, fc, cl, fl, up, f, gs, rs, gc⟩ := by
        simp only [advanceLoop]
        rw [run_bind, h1c]
        rfl
      refine step1.trans ?_
      simp [run_pure]
    | true =>
      obtain ⟨w, hw, hcl⟩ := h2 rfl
      subst hcl
      have h1c : click_by_text advanceClickVocab ⟨g, r, q, qa, fc, cl, fl, up, f, gs, rs, gc⟩
          = .ok (true, ⟨g, r, q.drop kq1, qa, fc, cl ++ [w], fl, up, f, gs, rs, gc⟩) := h1
      obtain ⟨kr2, n2, rr2, hg⟩ := gate_eff
        ⟨g, r, q.drop kq1, qa, fc, cl ++ [w], fl, up, f, gs, rs, gc⟩ hsc
      have hgc : detect_captcha_and_wait
            (⟨g, r, q.drop kq1, qa, fc, cl ++ [w], fl, up, f, gs, rs, gc⟩ : Page)
          = .ok ((), ⟨g, r.drop kr2, q.drop kq1, qa, fc, cl ++ [w], fl, up,
              f + n2, gs + n2, rs + rr2, gc + 1⟩) := hg
      obtain ⟨kq3, kr3, f3, rr3, cl3, h1b, hlen, hmem⟩ := ih
        ⟨g, r.drop kr2, q.drop kq1, qa, fc, cl ++ [w], fl, up,
          f + n2, gs + n2, rs + rr2, gc + 1⟩ (roundsSafe_drop r kr2 hsc)
      have h1bc : advanceLoop m (⟨g, r.drop kr2, q.drop kq1, qa, fc, cl ++ [w], fl, up,
            f + n2, gs + n2, rs + rr2, gc + 1⟩ : Page)
          = .ok ((), ⟨g, (r.drop kr2).drop kr3, (q.drop kq1).drop kq3, qa, fc,
              (cl ++ [w]) ++ cl3, fl, up, (f + n2) + f3, (gs + n2) + f3,
              (rs + rr2) + rr3, (gc + 1) + cl3.length⟩) := h1b
      refine ⟨kq1 + kq3, kr2 + kr3, n2 + f3, rr2 + rr3, w :: cl3, ?_, ?_, ?_⟩
      · have step1 : advanceLoop (m + 1) (⟨g, r, q, qa, fc, cl, fl, up, f, gs, rs, gc⟩ : Page)
            = (detect_captcha_and_wait >>= fun _ => advanceLoop m)
                ⟨g, r, q.drop kq1, qa, fc, cl ++ [w], fl, up, f, gs, rs, gc⟩ := by
          simp only [advanceLoop]
          rw [run_bind, h1c]
          rfl
        have step2 : (detect_captcha_and_wait >>= fun _ => advanceLoop m)
              (⟨g, r, q.drop kq1, qa, fc, cl ++ [w], fl, up, f, gs, rs, gc⟩ : Page)
            = advanceLoop m ⟨g, r.drop kr2, q.drop kq1, qa, fc, cl ++ [w], fl, up,
                f + n2, gs + n2, rs + rr2, gc + 1⟩ := by
          rw [run_bind, hgc]
        refine step1.trans (step2.trans (h1bc.trans ?_))
        simp [dropDropEq, List.append_assoc, Nat.add_assoc, Nat.add_comm, Nat.add_left_comm]
      · simp only [List.length_cons]
        omega
      · intro w2 hw2
        rcases List.mem_cons.mp hw2 with rfl | hw2
        · exact hw
        · exact hmem w2 hw2

theorem computeSubmitted_eff (p : Page) (hs : roundsSafe p.rounds = true) :
    ∃ (kq kr ff rr : Nat) (advCl subCl : List String) (b : Bool),
      computeSubmitted p = .ok (b, {p with
        queries := p.queries.drop kq,
        rounds := p.rounds.drop kr,
        clicks := p.clicks ++ (advCl ++ subCl),
        gateCalls := p.gateCalls + advCl.length,
        flashes := p.flashes + ff,
        gateSleeps := p.gateSleeps + ff,
        restores := p.restores + rr}) ∧
      advCl.length ≤ 2 ∧ (∀ w ∈ advCl, w ∈ advanceClickVocab) ∧
      subCl.length ≤ 1 ∧ (∀ w ∈ subCl, w ∈ submitVocab) ∧
      (b = true ↔ subCl ≠ []) := by
  obtain ⟨g, r, q, qa, fc, cl, fl, up, f, gs, rs, gc⟩ := p
  have hsc : roundsSafe r = true := hs
  obtain ⟨kq1, cl1, b1, h1, h2, h3⟩ :=
    click_by_text_eff submitVocab ⟨g, r, q, qa, fc, cl, fl, up, f, gs, rs, gc⟩
  cases b1 with
  | true =>
    obtain ⟨w, hw, hcl⟩ := h2 rfl
    subst hcl
    have h1c : click_by_text submitVocab ⟨g, r, q, qa, fc, cl, fl, up, f, gs, rs, gc⟩
        = .ok (true, ⟨g, r, q.drop kq1, qa, fc, cl ++ [w], fl, up, f, gs, rs, gc⟩) := h1
    refine ⟨kq1, 0, 0, 0, [], [w], true, ?_, by simp, by simp, by simp,
      ?_, by simp⟩
    · have step1 : computeSubmitted (⟨g, r, q, qa, fc, cl, fl, up, f, gs, rs, gc⟩ : Page)
          = (pure true : PageM Bool) ⟨g, r, q.drop kq1, qa, fc, cl ++ [w], fl, up,
              f, gs, rs, gc⟩ := by
        simp only [computeSubmitted]
        rw [run_bind, h1c]
        rfl
      exact step1
    · intro w2 hw2
      rcases List.mem_cons.mp hw2 with rfl | hw2
      · exact hw
      · simp at hw2
  | false =>
    have hcl : cl1 = [] := h3 rfl
    subst hcl
    have h1c : click_by_text submitVocab ⟨g, r, q, qa, fc, cl, fl, up, f, gs, rs, gc⟩
        = .ok (false, ⟨g, r, q.drop kq1, qa, fc, cl ++ [], fl, up, f, gs, rs, gc⟩) := h1
    rw [List.append_nil] at h1c
    obtain ⟨kq2, kr2, f2, rr2, cl2, hadv, hlen2, hmem2⟩ := advanceLoop_eff 2
      ⟨g, r, q.drop kq1, qa, fc, cl, fl, up, f, gs, rs, gc⟩ hsc
    have hadvc : advanceLoop 2 (⟨g, r, q.drop kq1, qa, fc, cl, fl, up, f, gs, rs, gc⟩ : Page)
        = .ok ((), ⟨g, r.drop kr2, (q.drop kq1).drop kq2, qa, fc, cl ++ cl2, fl, up,
            f + f2, gs + f2, rs + rr2, gc + cl2.length⟩) := hadv
    obtain ⟨kq3, cl3, b3, h3b, h3t, h3f⟩ := click_by_text_eff submitVocab
      ⟨g, r.drop kr2, (q.drop kq1).drop kq2, qa, fc, cl ++ cl2, fl, up,
        f + f2, gs + f2, rs + rr2, gc + cl2.length⟩
    have h3c : click_by_text submitVocab (⟨g, r.drop kr2, (q.drop kq1).drop kq2, qa, fc,
          cl ++ cl2, fl, up, f + f2, gs + f2, rs + rr2, gc + cl2.length⟩ : Page)
        = .ok (b3, ⟨g, r.drop kr2, ((q.drop kq1).drop kq2).drop kq3, qa, fc,
            (cl ++ cl2) ++ cl3, fl, up, f + f2, gs + f2, rs + rr2,
            gc + cl2.length⟩) := h3b
    refine ⟨kq1 + kq2 + kq3, kr2, f2, rr2, cl2, cl3, b3, ?_, ?_, hmem2, ?_, ?_, ?_⟩
    · have step1 : computeSubmitted (⟨g, r, q, qa, fc, cl, fl, up, f, gs, rs, gc⟩ : Page)
          = (advanceLoop 2 >>= fun _ => click_by_text submitVocab)
              ⟨g, r, q.drop kq1, qa, fc, cl, fl, up, f, gs, rs, gc⟩ := by
        simp only [computeSubmitted]
        rw [run_bind, h1c]
        rfl
      have step2 : (advanceLoop 2 >>= fun _ => click_by_text submitVocab)
            (⟨g, r, q.drop kq1, qa, fc, cl, fl, up, f, gs, rs, gc⟩ : Page)
          = click_by_text submitVocab ⟨g, r.drop kr2, (q.drop kq1).drop kq2, qa, fc,
              cl ++ cl2, fl, up, f + f2, gs + f2, rs + rr2, gc + cl2.length⟩ := by
        rw [run_bind, hadvc]
      refine step1.trans (step2.trans (h3c.trans ?_))
      simp [dropDropEq, List.append_assoc]
    · omega
    · cases b3 with
      | true => obtain ⟨w, _, hcl3⟩ := h3t rfl; subst hcl3; simp
      | false => rw [h3f rfl]; simp
    · intro w2 hw2
      cases b3 with
      | true =>
        obtain ⟨w, hwv, hcl3⟩ := h3t rfl
        subst hcl3
        rcases List.mem_cons.mp hw2 with rfl | hw2
        · exact hwv
        · simp at hw2
      | false =>
        rw [h3f rfl] at hw2
        simp at hw2
    · cases b3 with
      | true =>
        obtain ⟨w, _, hcl3⟩ := h3t rfl
        subst hcl3
        simp
      | false =>
        rw [h3f rfl]
        simp

/-- Claim C4: the AdvanceOrSubmit flow on any page whose pending rounds
cannot raise performs some advance clicks (at most two, all drawn from
the advance vocabulary, each one followed by exactly one CAPTCHA-gate
call, as recorded by the gate-call counter) and at most one submit
click drawn from the submit vocabulary, placed after the advances; the
submitted flag is true exactly when a submit control was clicked, and
Finalize maps the flag to applied when submit-without-review is
enabled, prepared when it is disabled, and filled_no_submit when no
submit control was ever actuated. -/
theorem claim_C4_advance_or_submit (p : Page) (hs : roundsSafe p.rounds = true) :
    ∃ (kq kr ff rr : Nat) (advCl subCl : List String) (b : Bool),
      computeSubmitted p = .ok (b, {p with
        queries := p.queries.drop kq,
        rounds := p.rounds.drop kr,
        clicks := p.clicks ++ (advCl ++ subCl),
        gateCalls := p.gateCalls + advCl.length,
        flashes := p.flashes + ff,
        gateSleeps := p.gateSleeps + ff,
        restores := p.restores + rr}) ∧
      advCl.length ≤ 2 ∧ (∀ w ∈ advCl, w ∈ advanceClickVocab) ∧
      subCl.length ≤ 1 ∧ (∀ w ∈ subCl, w ∈ submitVocab) ∧
      (b = true ↔ subCl ≠ []) ∧
      (finalizeRes (.submitRes b) true
        = if b then ⟨"applied", "submitted"⟩
          else ⟨"filled_no_submit", "could not find final submit"⟩) ∧
      (finalizeRes (.submitRes b) false
        = if b then ⟨"prepared", "filled but auto-submit disabled"⟩
          else ⟨"filled_no_submit", "could not find final submit"⟩) := by
  obtain ⟨kq, kr, ff, rr, advCl, subCl, b, heq, h1, h2, h3, h4, h5⟩ :=
    computeSubmitted_eff p hs
  refine ⟨kq, kr, ff, rr, advCl, subCl, b, heq, h1, h2, h3, h4, h5, ?_, ?_⟩
  · cases b <;> simp [finalizeRes]
  · cases b <;> simp [finalizeRes]

def submitBtnE : Elem := ⟨some "Submit application", some none, none, none, none⟩

def pageC4 : Page := ⟨[], [], [.found submitBtnE], [], [], [], [], 0, 0, 0, 0, 0⟩

theorem claim_C4_witness :
    roundsSafe pageC4.rounds = true ∧
    (∃ (kq kr ff rr : Nat) (advCl subCl : List String) (b : Bool),
      computeSubmitted pageC4 = .ok (b, {pageC4 with
        queries := pageC4.queries.drop kq,
        rounds := pageC4.rounds.drop kr,
        clicks := pageC4.clicks ++ (advCl ++ subCl),
        gateCalls := pageC4.gateCalls + advCl.length,
        flashes := pageC4.flashes + ff,
        gateSleeps := pageC4.gateSleeps + ff,
        restores := pageC4.restores + rr}) ∧
      advCl.length ≤ 2 ∧ (∀ w ∈ advCl, w ∈ advanceClickVocab) ∧
      subCl.length ≤ 1 ∧ (∀ w ∈ subCl, w ∈ submitVocab) ∧
      (b = true ↔ subCl ≠ []) ∧
      (finalizeRes (.submitRes b) true
        = if b then ⟨"applied", "submitted"⟩
          else ⟨"filled_no_submit", "could not find final submit"⟩) ∧
      (finalizeRes (.submitRes b) false
        = if b then ⟨"prepared", "filled but auto-submit disabled"⟩
          else ⟨"filled_no_submit", "could not find final submit"⟩)) :=
  ⟨rfl, claim_C4_advance_or_submit pageC4 rfl⟩

/-- The fixed terminal outcome vocabulary of the state machine. -/
def statusEnum : List String :=
  ["applied", "prepared", "filled_no_submit", "skipped_long_form", "no_easy_apply", "error"]

/-- Claim C1: for every trace of page-automation responses (including
all-absent and raising ones) apply_easy_apply returns exactly one
outcome whose status is drawn from the fixed enum — the function is
total by construction over the embedding — and whenever the flow body
raises, the returned outcome is the error status carrying the raise
message as notes. -/
theorem claim_C1_totality : ∀ (p : Page) (job : Job) (cfg : Config),
    (apply_easy_apply p job cfg).1.status ∈ statusEnum ∧
    (∀ (msg : String) (p2 : Page), applyGo job cfg p = .error (msg, p2) →
      (apply_easy_apply p job cfg).1 = ⟨"error", msg⟩) := by
  intro p job cfg
  constructor
  · unfold apply_easy_apply applyGo PageM.bindF PageM.pureF
    cases hf : applyFlow cfg.skip_long_forms cfg.phone_number cfg.resume_data_science
        cfg.resume_software_engineering job p with
    | error e =>
      obtain ⟨msg, p2⟩ := e
      simp [statusEnum]
    | ok v =>
      obtain ⟨fr, p2⟩ := v
      cases fr with
      | noEasy => simp [finalizeRes, statusEnum]
      | skippedLong est => simp [finalizeRes, statusEnum]
      | submitRes b =>
        cases b with
        | true =>
          by_cases hswr : cfg.submit_without_review
          · simp [finalizeRes, hswr, statusEnum]
          · simp [finalizeRes, hswr, statusEnum]
        | false => simp [finalizeRes, statusEnum]
  · intro msg p2 herr
    unfold apply_easy_apply
    rw [herr]

def pageC1 : Page := ⟨[some "boom"], [], [], [], [], [], [], 0, 0, 0, 0, 0⟩

def jobC1 : Job := ⟨"T", "C", "/jobs/view/1", true⟩

def cfgC1 : Config := ⟨true, "", true, "r1", "r2"⟩

def pageC1after : Page := ⟨[], [], [], [], [], [], [], 0, 0, 0, 0, 0⟩

theorem claim_C1_witness :
    (apply_easy_apply pageC1 jobC1 cfgC1).1.status ∈ statusEnum ∧
    (apply_easy_apply pageC1 jobC1 cfgC1).1 = ⟨"error", "boom"⟩ :=
  ⟨(claim_C1_totality pageC1 jobC1 cfgC1).1,
   (claim_C1_totality pageC1 jobC1 cfgC1).2 "boom" pageC1after rfl⟩

def applyBtnOk : Elem := ⟨some "Easy Apply", some none, none, none, none⟩

def modalElOk : Elem := ⟨some "modal", some none, none, none, none⟩

/-- Page family reaching the ComplexityGate: navigation succeeds, no
CAPTCHA, the Easy Apply trigger is found and clicks cleanly, the modal
is found and enumerates the candidate controls `bs`; everything after
the gate decision is an arbitrary continuation trace. -/
def c3Page (bs : List Elem) (qs : List QRes) (qas : List QARes) (fc : List Bool) : Page :=
  ⟨[none], [], .found applyBtnOk :: .found modalElOk :: qs, .elems bs :: qas, fc,
   [], [], 0, 0, 0, 0, 0⟩

/-- The page state at the ComplexityGate decision point of `c3Page`. -/
def c3Mid (qs : List QRes) (qas : List QARes) (fc : List Bool) : Page :=
  ⟨[], [], qs, qas, fc, ["easy-apply-button"], [], 0, 0, 0, 0, 2⟩

theorem c3_flow (bs : List Elem) (qs : List QRes) (qas : List QARes) (fc : List Bool)
    (skip : Bool) (phone rds rse : String) (job : Job) :
    applyFlow skip phone rds rse job (c3Page bs qs qas fc)
      = (if skip && decide (max 1 (countAdvance bs + 1) > 2) then
           dismissModal >>= fun _ => pure (FlowRes.skippedLong (max 1 (countAdvance bs + 1)))
         else
           fillPhone phone >>= fun _ =>
           uploadResume rds rse job.title >>= fun _ =>
           computeSubmitted >>= fun s => pure (FlowRes.submitRes s))
        (c3Mid qs qas fc) := by
  rfl

/-- Claim C3, amended: on every page reaching the ComplexityGate with
candidate controls `bs` (so the step estimate is the count of controls
whose text contains a forward-navigation word, plus one, floored at
one) and any continuation trace, the outcome is skipped_long_form
exactly when the skip-long-forms flag is enabled and the estimate
exceeds the fixed threshold 2 hard-coded in the source; no
configuration value can move that threshold. -/
theorem claim_C3_complexity_gate :
    ∀ (bs : List Elem) (qs : List QRes) (qas : List QARes) (fc : List Bool)
      (skip swr : Bool) (phone rds rse : String) (job : Job),
    ((apply_easy_apply (c3Page bs qs qas fc) job ⟨skip, phone, swr, rds, rse⟩).1.status
        = "skipped_long_form")
      ↔ (skip = true ∧ max 1 (countAdvance bs + 1) > 2) := by
  intro bs qs qas fc skip swr phone rds rse job
  have hflow := c3_flow bs qs qas fc skip phone rds rse job
  by_cases hc : (skip && decide (max 1 (countAdvance bs + 1) > 2)) = true
  · rw [if_pos hc] at hflow
    obtain ⟨kq, cl2, hd⟩ := dismissModal_eff (c3Mid qs qas fc)
    have hflow2 : applyFlow skip phone rds rse job (c3Page bs qs qas fc)
        = .ok (FlowRes.skippedLong (max 1 (countAdvance bs + 1)),
            {c3Mid qs qas fc with
              queries := (c3Mid qs qas fc).queries.drop kq,
              clicks := (c3Mid qs qas fc).clicks ++ cl2}) := by
      rw [hflow, run_bind, hd]
      rfl
    simp only [apply_easy_apply, applyGo, PageM.bindF]
    rw [hflow2]
    simp only [Bool.and_eq_true, decide_eq_true_eq] at hc
    exact ⟨fun _ => hc, fun _ => rfl⟩
  · rw [if_neg hc] at hflow
    obtain ⟨kq1, fl2, hf⟩ := fillPhone_eff phone (c3Mid qs qas fc)
    set P1 : Page := {c3Mid qs qas fc with
      queries := (c3Mid qs qas fc).queries.drop kq1,
      fills := (c3Mid qs qas fc).fills ++ fl2} with hP1
    obtain ⟨kq2, kf, u, hu⟩ := uploadResume_eff rds rse job.title P1
    set P2 : Page := {P1 with
      queries := P1.queries.drop kq2,
      fileChecks := P1.fileChecks.drop kf,
      uploads := P1.uploads + u} with hP2
    have hsafe : roundsSafe P2.rounds = true := rfl
    obtain ⟨kq3, kr, ff, rr, advCl, subCl, b, heq, _, _, _, _, _⟩ :=
      computeSubmitted_eff P2 hsafe
    have hflow2 : applyFlow skip phone rds rse job (c3Page bs qs qas fc)
        = .ok (FlowRes.submitRes b, {P2 with
            queries := P2.queries.drop kq3,
            rounds := P2.rounds.drop kr,
            clicks := P2.clicks ++ (advCl ++ subCl),
            gateCalls := P2.gateCalls + advCl.length,
            flashes := P2.flashes + ff,
            gateSleeps := P2.gateSleeps + ff,
            restores := P2.restores + rr}) := by
      rw [hflow, run_bind, hf]
      show (uploadResume rds rse job.title >>= fun _ =>
        computeSubmitted >>= fun s => pure (FlowRes.submitRes s)) P1 = _
      rw [run_bind, hu]
      show (computeSubmitted >>= fun s => pure (FlowRes.submitRes s)) P2 = _
      rw [run_bind, heq]
      rfl
    simp only [apply_easy_apply, applyGo, PageM.bindF]
    rw [hflow2]
    simp only [PageM.pureF, finalizeRes]
    simp only [Bool.and_eq_true, decide_eq_true_eq, not_and] at hc
    constructor
    · intro hst
      exfalso
      cases b with
      | true =>
        by_cases hswr : swr = true
        · simp [hswr] at hst
        · simp [Bool.not_eq_true] at hswr
          simp [hswr] at hst
      | false => simp at hst
    · intro ⟨h1, h2⟩
      exact absurd h2 (by simpa using hc h1)

def nextBtnE : Elem := ⟨some "Next", some none, none, none, none⟩

/-- Specification-side definition, for refinement comparison only: the
ComplexityGate as the spec words it, parameterized by a configured
per-posting step-count threshold.  The source reads no such
configuration value: its gate compares against the literal 2. -/
def specComplexityGate (threshold est : Nat) (skipEnabled : Bool) : Bool :=
  skipEnabled && decide (est > threshold)

/-- Claim C3, counterexample: with three forward-navigation controls
the estimate is 4 and the machine skips the form even though the
spec-side gate with a configured threshold of 5 says it must proceed
to fill and submit — the source compares against a hard-coded 2 and
reads no threshold from configuration. -/
theorem claim_C3_counterexample :
    (apply_easy_apply (c3Page [nextBtnE, nextBtnE, nextBtnE] [] [] [])
        ⟨"T", "C", "/u", true⟩ ⟨true, "", true, "r1", "r2"⟩).1
      = ⟨"skipped_long_form", "4 steps"⟩ ∧
    specComplexityGate 5 4 true = false ∧
    max 1 (countAdvance [nextBtnE, nextBtnE, nextBtnE] + 1) = 4 := by
  refine ⟨?_, rfl, rfl⟩
  rfl

theorem computeSubmitted_true_mem (p p2 : Page)
    (h : computeSubmitted p = .ok (true, p2)) :
    ∃ w, w ∈ submitVocab ∧ w ∈ p2.clicks := by
  obtain ⟨kq1, cl1, b1, h1, h2, h3⟩ := click_by_text_eff submitVocab p
  rw [computeSubmitted, run_bind, h1] at h
  cases b1 with
  | true =>
    obtain ⟨w, hw, hcl⟩ := h2 rfl
    subst hcl
    have h4 : (Except.ok (true, ({p with
          queries := p.queries.drop kq1,
          clicks := p.clicks ++ [w]} : Page)) : Except (String × Page) (Bool × Page))
        = Except.ok (true, p2) := h
    simp only [Except.ok.injEq, Prod.mk.injEq, true_and] at h4
    refine ⟨w, hw, ?_⟩
    rw [← h4]
    simp
  | false =>
    have hcl : cl1 = [] := h3 rfl
    subst hcl
    have h4 : (advanceLoop 2 >>= fun _ => click_by_text submitVocab)
        ({p with
          queries := p.queries.drop kq1,
          clicks := p.clicks ++ []} : Page) = Except.ok (true, p2) := h
    rw [run_bind] at h4
    cases ha : advanceLoop 2
        ({p with
          queries := p.queries.drop kq1,
          clicks := p.clicks ++ []} : Page) with
    | error e => rw [ha] at h4; simp at h4
    | ok v =>
      obtain ⟨u, pY⟩ := v
      rw [ha] at h4
      have h5 : click_by_text submitVocab pY = Except.ok (true, p2) := h4
      obtain ⟨kq3, cl3, b3, h3b, h3t, h3f⟩ := click_by_text_eff submitVocab pY
      rw [h3b] at h5
      simp only [Except.ok.injEq, Prod.mk.injEq] at h5
      obtain ⟨hb3, hp2⟩ := h5
      obtain ⟨w, hw, hcl3⟩ := h3t hb3
      subst hcl3
      refine ⟨w, hw, ?_⟩
      rw [← hp2]
      simp

theorem applyFlow_submit_clicks (skipLong : Bool) (phone rds rse : String) (job : Job)
    (p p2 : Page)
    (h : applyFlow skipLong phone rds rse job p = .ok (.submitRes true, p2)) :
    ∃ w, w ∈ submitVocab ∧ w ∈ p2.clicks := by
  rw [applyFlow, run_bind] at h
  cases hg : pgGoto job.url p with
  | error e => rw [hg] at h; simp at h
  | ok v =>
    obtain ⟨u0, p1⟩ := v
    rw [hg] at h
    dsimp only at h
    rw [run_bind] at h
    cases hgate : detect_captcha_and_wait p1 with
    | error e => rw [hgate] at h; simp at h
    | ok v2 =>
      obtain ⟨u1, pA⟩ := v2
      rw [hgate] at h
      dsimp only at h
      rw [run_bind] at h
      cases hfind : findFirstSel easyApplySelectors pA with
      | error e => rw [hfind] at h; simp at h
      | ok v3 =>
        obtain ⟨btn, pB⟩ := v3
        rw [hfind] at h
        dsimp only at h
        cases btn with
        | none => simp [run_pure, PageM.pureF] at h
        | some be =>
          dsimp only at h
          rw [run_bind] at h
          cases hclick : elClick be "easy-apply-button" pB with
          | error e => rw [hclick] at h; simp at h
          | ok v4 =>
            obtain ⟨u2, pC⟩ := v4
            rw [hclick] at h
            dsimp only at h
            rw [run_bind] at h
            cases hgate2 : detect_captcha_and_wait pC with
            | error e => rw [hgate2] at h; simp at h
            | ok v5 =>
              obtain ⟨u3, pD⟩ := v5
              rw [hgate2] at h
              dsimp only at h
              rw [run_bind] at h
              cases hest : estimateSteps pD with
              | error e => rw [hest] at h; simp at h
              | ok v6 =>
                obtain ⟨est, pE⟩ := v6
                rw [hest] at h
                dsimp only at h
                by_cases hcond : (skipLong && decide (est > 2)) = true
                · rw [if_pos hcond, run_bind] at h
                  cases hd : dismissModal pE with
                  | error e => rw [hd] at h; simp at h
                  | ok v7 =>
                    obtain ⟨u4, pF⟩ := v7
                    rw [hd] at h
                    simp [run_pure, PageM.pureF] at h
                · rw [if_neg hcond, run_bind] at h
                  cases hf : fillPhone phone pE with
                  | error e => rw [hf] at h; simp at h
                  | ok v7 =>
                    obtain ⟨u4, pF⟩ := v7
                    rw [hf] at h
                    dsimp only at h
                    rw [run_bind] at h
                    cases hu : uploadResume rds rse job.title pF with
                    | error e => rw [hu] at h; simp at h
                    | ok v8 =>
                      obtain ⟨u5, pG⟩ := v8
                      rw [hu] at h
                      dsimp only at h
                      rw [run_bind] at h
                      cases hcs : computeSubmitted pG with
                      | error e => rw [hcs] at h; simp at h
                      | ok v9 =>
                        obtain ⟨sb, pH⟩ := v9
                        rw [hcs] at h
                        have h5 : (Except.ok (FlowRes.submitRes sb, pH) :
                            Except (String × Page) (FlowRes × Page))
                            = Except.ok (FlowRes.submitRes true, p2) := h
                        simp only [Except.ok.injEq, Prod.mk.injEq,
                          FlowRes.submitRes.injEq] at h5
                        obtain ⟨hsb, hp2⟩ := h5
                        subst hsb
                        subst hp2
                        exact computeSubmitted_true_mem pG pH hcs

/-- Claim C10: the submit-without-review flag is consulted only after
any submit click has already happened: flipping the flag leaves the
final page, including the click log, unchanged; it swaps the applied
outcome for prepared; and whenever prepared is returned, a control
matching the submit vocabulary was actually clicked, exactly as in the
applied case. -/
theorem claim_C10_flag_after_click : ∀ (p : Page) (job : Job) (cfg : Config),
    (apply_easy_apply p job {cfg with submit_without_review := true}).2
      = (apply_easy_apply p job {cfg with submit_without_review := false}).2 ∧
    ((apply_easy_apply p job {cfg with submit_without_review := true}).1.status = "applied"
      ↔ (apply_easy_apply p job {cfg with submit_without_review := false}).1.status
          = "prepared") ∧
    ((apply_easy_apply p job {cfg with submit_without_review := false}).1.status
        = "prepared" →
      ∃ w, w ∈ submitVocab ∧
        w ∈ (apply_easy_apply p job {cfg with submit_without_review := false}).2.clicks) := by
  intro p job cfg
  obtain ⟨sk, ph, swr0, rds, rse⟩ := cfg
  simp only [apply_easy_apply, applyGo, PageM.bindF, PageM.pureF]
  cases hf : applyFlow sk ph rds rse job p with
  | error e =>
    obtain ⟨msg, pe⟩ := e
    refine ⟨rfl, by simp, ?_⟩
    intro hcontra
    simp at hcontra
  | ok v =>
    obtain ⟨fr, p3⟩ := v
    cases fr with
    | noEasy =>
      refine ⟨rfl, by simp [finalizeRes], ?_⟩
      intro hcontra
      simp [finalizeRes] at hcontra
    | skippedLong est =>
      refine ⟨rfl, by simp [finalizeRes], ?_⟩
      intro hcontra
      simp [finalizeRes] at hcontra
    | submitRes b =>
      cases b with
      | true =>
        refine ⟨rfl, by simp [finalizeRes], ?_⟩
        intro _
        exact applyFlow_submit_clicks sk ph rds rse job p p3 hf
      | false =>
        refine ⟨rfl, by simp [finalizeRes], ?_⟩
        intro hcontra
        simp [finalizeRes] at hcontra

def pageC10 : Page :=
  ⟨[], [], [.found applyBtnOk, .found modalElOk, .absent, .found submitBtnE],
   [.elems []], [], [], [], 0, 0, 0, 0, 0⟩

def jobC10 : Job := ⟨"T", "C", "/jobs/view/2", true⟩

def cfgC10 : Config := ⟨true, "", true, "r1", "r2"⟩

theorem claim_C10_witness :
    (apply_easy_apply pageC10 jobC10 {cfgC10 with submit_without_review := true}).2
      = (apply_easy_apply pageC10 jobC10 {cfgC10 with submit_without_review := false}).2 ∧
    ((apply_easy_apply pageC10 jobC10 {cfgC10 with submit_without_review := true}).1.status
        = "applied"
      ↔ (apply_easy_apply pageC10 jobC10 {cfgC10 with submit_without_review := false}).1.status
          = "prepared") ∧
    (∃ w, w ∈ submitVocab ∧
      w ∈ (apply_easy_apply pageC10 jobC10
            {cfgC10 with submit_without_review := false}).2.clicks) :=
  ⟨(claim_C10_flag_after_click pageC10 jobC10 cfgC10).1,
   (claim_C10_flag_after_click pageC10 jobC10 cfgC10).2.1,
   (claim_C10_flag_after_click pageC10 jobC10 cfgC10).2.2 rfl⟩
